import Mathlib

/-!
# CLA-dwight: verification of the signature cache and reload engine

A shallow embedding of the core of `server.mjs` (the CLA-assistant proxy):
the signature data model, the per-user snapshot builder (`getSignees`),
local-signature merging (`addLocalSignature`), the reload orchestrator
(`globalReload`), the file-cache serializer (`writeCacheFile` /
`readCacheFile`), the local-signature reader (`getLocalSignatures`) and the
upstream document resolver (`getGist`).

JavaScript idioms are modelled explicitly:
* `undefined` string fields become `Option String` with JS comparison
  semantics (`undefined < x` is `false`, `undefined != x` is `true`);
* `Array.prototype.sort(cmp)` is modelled as a stable insertion sort
  (ECMAScript leaves the algorithm unspecified; engines use insertion
  sort for short arrays, and any stable algorithm is a faithful model);
* a JS `Map` is an insertion-ordered association list;
* network and file-system results are inputs (environment) rather than
  effects.
-/

namespace ClaDwight

/-! ## JS comparison primitives on possibly-undefined strings -/

/-- JS `a < b` where either side may be `undefined`: any relational
comparison involving `undefined` is `false`. -/
def jsLt : Option String → Option String → Bool
  | some a, some b => a < b
  | _, _ => false

/-- JS `a != b` (loose) on strings/undefined: `undefined != undefined`
is `false`, `undefined != "x"` is `true`. -/
def jsNe : Option String → Option String → Bool
  | some a, some b => a ≠ b
  | none, none => false
  | _, _ => true

/-! ## Data model: Signature -/

/-- One signature record, as produced by the upstream normalization
(`getSignatures`) or by a local upload (`signatureFromUpload`).
Fields that the source may leave `undefined` are `Option`s. -/
structure Signature where
  sigId : String                        -- `_id`
  user : String
  created_at : String
  updated_at : String
  revoked_at : Option String := none
  gist_version : Option String := none
  gist_committed_at : Option String := none
  gist_filename : Option String := none
  gist_url : Option String := none
  custom_fields : Option (List (String × String)) := none
  origin : Option String := none
deriving DecidableEq, Repr

/-- `signatureComparer` from `server.mjs`: order by signed date descending,
then version date descending, then update date descending.  The dates are
strings in a sortable format; `gist_committed_at` may be `undefined`. -/
def signatureComparer (a b : Signature) : Int :=
  if a.created_at < b.created_at then 1
  else if a.created_at ≠ b.created_at then -1
  else if jsLt a.gist_committed_at b.gist_committed_at then 1
  else if jsNe a.gist_committed_at b.gist_committed_at then -1
  else if a.updated_at < b.updated_at then 1
  else if a.updated_at ≠ b.updated_at then -1
  else 0

/-- `a` may be placed no later than `b` under `signatureComparer`. -/
def sigLE (a b : Signature) : Prop := signatureComparer a b ≤ 0

instance (a b : Signature) : Decidable (sigLE a b) := by
  unfold sigLE; infer_instance

/-! ## `Array.prototype.sort` model: stable insertion sort -/

/-- Insert `x` into `l`, placing it before the first element `y` with
`cmp x y < 0` (so elements comparing equal keep their original order,
as ECMAScript requires of a stable sort). -/
def jsInsert (cmp : α → α → Int) (x : α) : List α → List α
  | [] => [x]
  | y :: ys => if cmp x y < 0 then x :: y :: ys else y :: jsInsert cmp x ys

/-- `Array.prototype.sort(cmp)` modelled as a stable insertion sort. -/
def jsSort (cmp : α → α → Int) (l : List α) : List α :=
  l.foldl (fun acc x => jsInsert cmp x acc) []

/-! ## The signee map: a JS `Map` keyed by username -/

/-- A JS `Map` from username to signature list, as an insertion-ordered
association list. -/
abbrev SigMap := List (String × List Signature)

/-- `map.get(user)` (first matching key; JS maps have unique keys). -/
def mapFind? (m : SigMap) (u : String) : Option (List Signature) :=
  (m.find? (fun e => e.1 = u)).map (·.2)

/-- `map.has(user)`. -/
def mapHas (m : SigMap) (u : String) : Bool :=
  (m.find? (fun e => e.1 = u)).isSome

/-- The grouping step of `getSignees`' reduce: push onto an existing
entry (`map.get(user).push(s)`) or create a fresh one
(`map.set(user, [s])`, which appends in insertion order). -/
def mapPush (m : SigMap) (u : String) (s : Signature) : SigMap :=
  if mapHas m u then
    m.map (fun e => (e.1, if e.1 = u then e.2 ++ [s] else e.2))
  else
    m ++ [(u, [s])]

/-- `addLocalSignature` from `server.mjs`: push the signature onto the
subject's list (creating it if absent) and re-sort the touched list when
`sort` is set. -/
def addLocalSignature (m : SigMap) (s : Signature) (sort : Bool) : SigMap :=
  if mapHas m s.user then
    m.map (fun e =>
      (e.1, if e.1 = s.user then
              (if sort then jsSort signatureComparer (e.2 ++ [s]) else e.2 ++ [s])
            else e.2))
  else
    m ++ [(s.user, [s])]

/-- The published signee structure: the map plus the `timestamp` own
property that `getSignees` attaches (`signees.timestamp = new Date()`). -/
structure Signees where
  map : SigMap
  timestamp : Nat
deriving DecidableEq, Repr

/-- The aggregation part of `getSignees` from `server.mjs`: flatten the
per-version signature lists (the sequential `getSignatures` fetches,
supplied here as input), group by `signature.user` into a `Map`, stamp
the map with the current time, and sort every signee's list in place
with `signatureComparer`. -/
def getSignees (perVersionSignatures : List (List Signature)) (now : Nat) : Signees :=
  let signees := perVersionSignatures.flatten.foldl (fun m s => mapPush m s.user s) []
  { map := signees.map (fun e => (e.1, jsSort signatureComparer e.2))
    timestamp := now }

/-! ## The signature ordering key -/

/-- A signature carries its document-version commit timestamp (set by the
upstream normalization when the record's version is recognized; absent on
locally uploaded signatures). -/
def Committed (s : Signature) : Prop := s.gist_committed_at.isSome

instance (s : Signature) : Decidable (Committed s) := by
  unfold Committed; infer_instance

/-- The (created_at, gist_committed_at, updated_at) ordering key of a
signature (meaningful when the signature is `Committed`). -/
def sigKey (s : Signature) : String × String × String :=
  (s.created_at, s.gist_committed_at.getD "", s.updated_at)

/-- Strict lexicographic order on ordering keys. -/
def keyLT (a b : String × String × String) : Prop :=
  a.1 < b.1 ∨ (a.1 = b.1 ∧ (a.2.1 < b.2.1 ∨ (a.2.1 = b.2.1 ∧ a.2.2 < b.2.2)))

/-- Lexicographic order on ordering keys. -/
def keyLE (a b : String × String × String) : Prop :=
  keyLT a b ∨ a = b

theorem keyLE_refl (a : String × String × String) : keyLE a a := Or.inr rfl

theorem keyLT_trans {a b c : String × String × String}
    (h₁ : keyLT a b) (h₂ : keyLT b c) : keyLT a c := by
  rcases h₁ with h₁ | ⟨e₁, h₁⟩
  · rcases h₂ with h₂ | ⟨e₂, h₂⟩
    · exact Or.inl (lt_trans h₁ h₂)
    · exact Or.inl (e₂ ▸ h₁)
  · rcases h₂ with h₂ | ⟨e₂, h₂⟩
    · exact Or.inl (e₁ ▸ h₂)
    · refine Or.inr ⟨e₁.trans e₂, ?_⟩
      rcases h₁ with h₁ | ⟨f₁, h₁⟩
      · rcases h₂ with h₂ | ⟨f₂, h₂⟩
        · exact Or.inl (lt_trans h₁ h₂)
        · exact Or.inl (f₂ ▸ h₁)
      · rcases h₂ with h₂ | ⟨f₂, h₂⟩
        · exact Or.inl (f₁ ▸ h₂)
        · exact Or.inr ⟨f₁.trans f₂, lt_trans h₁ h₂⟩

theorem keyLE_trans {a b c : String × String × String}
    (h₁ : keyLE a b) (h₂ : keyLE b c) : keyLE a c := by
  rcases h₁ with h₁ | rfl
  · rcases h₂ with h₂ | rfl
    · exact Or.inl (keyLT_trans h₁ h₂)
    · exact Or.inl h₁
  · exact h₂

theorem keyLE_of_not_lt {a b : String × String × String}
    (h : ¬ keyLT b a) : keyLE a b := by
  obtain ⟨a₁, a₂, a₃⟩ := a
  obtain ⟨b₁, b₂, b₃⟩ := b
  unfold keyLT at h
  push_neg at h
  rcases lt_trichotomy a₁ b₁ with h₁ | h₁ | h₁
  · exact Or.inl (Or.inl h₁)
  · subst h₁
    obtain ⟨-, h⟩ := h
    have h := h rfl
    rcases lt_trichotomy a₂ b₂ with h₂ | h₂ | h₂
    · exact Or.inl (Or.inr ⟨rfl, Or.inl h₂⟩)
    · subst h₂
      obtain ⟨-, h⟩ := h
      have h := h rfl
      rcases lt_trichotomy a₃ b₃ with h₃ | h₃ | h₃
      · exact Or.inl (Or.inr ⟨rfl, Or.inr ⟨rfl, h₃⟩⟩)
      · exact Or.inr (by simp [h₃])
      · exact absurd h₃ h
    · exact absurd h₂ h.1
  · exact absurd h₁ h.1

theorem keyLT_irrefl (a : String × String × String) : ¬ keyLT a a := by
  rintro (h | ⟨-, h | ⟨-, h⟩⟩) <;> exact lt_irrefl _ h

theorem keyLT_asymm {a b : String × String × String}
    (h : keyLT a b) : ¬ keyLT b a :=
  fun h' => keyLT_irrefl a (keyLT_trans h h')

/-- On committed signatures, the comparer computes the strict
lexicographic comparison of ordering keys. -/
theorem signatureComparer_trichotomy {a b : Signature}
    (ha : Committed a) (hb : Committed b) :
    (keyLT (sigKey a) (sigKey b) ∧ signatureComparer a b = 1)
    ∨ (sigKey a = sigKey b ∧ signatureComparer a b = 0)
    ∨ (keyLT (sigKey b) (sigKey a) ∧ signatureComparer a b = -1) := by
  obtain ⟨ga, hga⟩ := Option.isSome_iff_exists.mp ha
  obtain ⟨gb, hgb⟩ := Option.isSome_iff_exists.mp hb
  have hkey_a : sigKey a = (a.created_at, ga, a.updated_at) := by simp [sigKey, hga]
  have hkey_b : sigKey b = (b.created_at, gb, b.updated_at) := by simp [sigKey, hgb]
  rcases lt_trichotomy a.created_at b.created_at with h₁ | h₁ | h₁
  · refine Or.inl ⟨?_, ?_⟩
    · rw [hkey_a, hkey_b]; exact Or.inl h₁
    · unfold signatureComparer; rw [if_pos h₁]
  · rcases lt_trichotomy ga gb with h₂ | h₂ | h₂
    · refine Or.inl ⟨?_, ?_⟩
      · rw [hkey_a, hkey_b]; exact Or.inr ⟨h₁, Or.inl h₂⟩
      · unfold signatureComparer
        rw [if_neg (by simp [h₁]), if_neg (not_not_intro h₁), hga, hgb,
          if_pos (by simp [jsLt, h₂])]
    · rcases lt_trichotomy a.updated_at b.updated_at with h₃ | h₃ | h₃
      · refine Or.inl ⟨?_, ?_⟩
        · rw [hkey_a, hkey_b]; exact Or.inr ⟨h₁, Or.inr ⟨h₂, h₃⟩⟩
        · unfold signatureComparer
          rw [if_neg (by simp [h₁]), if_neg (not_not_intro h₁), hga, hgb,
            if_neg (by simp [jsLt, h₂]), if_neg (by simp [jsNe, h₂]),
            if_pos h₃]
      · refine Or.inr (Or.inl ⟨?_, ?_⟩)
        · rw [hkey_a, hkey_b, h₁, h₂, h₃]
        · unfold signatureComparer
          rw [if_neg (by simp [h₁]), if_neg (not_not_intro h₁), hga, hgb,
            if_neg (by simp [jsLt, h₂]), if_neg (by simp [jsNe, h₂]),
            if_neg (by simp [h₃]), if_neg (not_not_intro h₃)]
      · refine Or.inr (Or.inr ⟨?_, ?_⟩)
        · rw [hkey_a, hkey_b]; exact Or.inr ⟨h₁.symm, Or.inr ⟨h₂.symm, h₃⟩⟩
        · unfold signatureComparer
          rw [if_neg (by simp [h₁]), if_neg (not_not_intro h₁), hga, hgb,
            if_neg (by simp [jsLt, h₂]), if_neg (by simp [jsNe, h₂]),
            if_neg (by simp [asymm h₃]), if_pos (ne_of_gt h₃)]
    · refine Or.inr (Or.inr ⟨?_, ?_⟩)
      · rw [hkey_a, hkey_b]; exact Or.inr ⟨h₁.symm, Or.inl h₂⟩
      · unfold signatureComparer
        rw [if_neg (by simp [h₁]), if_neg (not_not_intro h₁), hga, hgb,
          if_neg (by simp only [jsLt, decide_eq_true_eq]; exact asymm h₂),
          if_pos (by simp only [jsNe, ne_eq, decide_eq_true_eq]; exact ne_of_gt h₂)]
  · refine Or.inr (Or.inr ⟨?_, ?_⟩)
    · rw [hkey_a, hkey_b]; exact Or.inl h₁
    · unfold signatureComparer
      rw [if_neg (asymm h₁), if_pos (ne_of_gt h₁)]

/-- Characterization of the comparer on committed signatures:
`signatureComparer a b ≤ 0` (the sort may place `a` no later than `b`)
holds exactly when `b`'s key is lexicographically at most `a`'s. -/
theorem signatureComparer_le_iff {a b : Signature}
    (ha : Committed a) (hb : Committed b) :
    signatureComparer a b ≤ 0 ↔ keyLE (sigKey b) (sigKey a) := by
  rcases signatureComparer_trichotomy ha hb with ⟨hk, hc⟩ | ⟨hk, hc⟩ | ⟨hk, hc⟩
  · rw [hc]
    constructor
    · omega
    · rintro (h | h)
      · exact absurd hk (keyLT_asymm h)
      · exact absurd (h ▸ hk) (keyLT_irrefl _)
  · rw [hc]
    exact iff_of_true (by omega) (Or.inr hk.symm)
  · rw [hc]
    exact iff_of_true (by omega) (Or.inl hk)

/-- Characterization of strict precedence on committed signatures:
`signatureComparer a b < 0` holds exactly when `a`'s key is
lexicographically strictly greater than `b`'s. -/
theorem signatureComparer_lt_iff {a b : Signature}
    (ha : Committed a) (hb : Committed b) :
    signatureComparer a b < 0 ↔ ¬ keyLE (sigKey a) (sigKey b) := by
  rcases signatureComparer_trichotomy ha hb with ⟨hk, hc⟩ | ⟨hk, hc⟩ | ⟨hk, hc⟩
  · rw [hc]
    exact iff_of_false (by omega) (not_not_intro (Or.inl hk))
  · rw [hc]
    exact iff_of_false (by omega) (not_not_intro (Or.inr hk))
  · rw [hc]
    refine iff_of_true (by omega) ?_
    rintro (h | h)
    · exact absurd hk (keyLT_asymm h)
    · exact absurd (h ▸ hk) (keyLT_irrefl _)

theorem sigLE_trans {a b c : Signature} (ha : Committed a) (hb : Committed b)
    (hc : Committed c) (h₁ : sigLE a b) (h₂ : sigLE b c) : sigLE a c :=
  (signatureComparer_le_iff ha hc).mpr
    (keyLE_trans ((signatureComparer_le_iff hb hc).mp h₂)
      ((signatureComparer_le_iff ha hb).mp h₁))

theorem sigLE_of_not_lt {a b : Signature} (ha : Committed a) (hb : Committed b)
    (h : ¬ signatureComparer a b < 0) : sigLE b a := by
  rw [signatureComparer_lt_iff ha hb, not_not] at h
  exact (signatureComparer_le_iff hb ha).mpr h

theorem sigLE_of_lt {a b : Signature} (h : signatureComparer a b < 0) :
    sigLE a b := le_of_lt h

/-! ## Sortedness of the insertion-sort model -/

theorem mem_jsInsert {cmp : α → α → Int} {x z : α} :
    ∀ {l : List α}, z ∈ jsInsert cmp x l ↔ z = x ∨ z ∈ l
  | [] => by simp [jsInsert]
  | y :: ys => by
    unfold jsInsert
    split
    · simp
    · rw [List.mem_cons, List.mem_cons, mem_jsInsert]
      tauto

theorem jsInsert_perm (cmp : α → α → Int) (x : α) :
    ∀ l : List α, List.Perm (jsInsert cmp x l) (x :: l)
  | [] => List.Perm.refl _
  | y :: ys => by
    unfold jsInsert
    split
    · exact List.Perm.refl _
    · exact (List.Perm.cons y (jsInsert_perm cmp x ys)).trans (List.Perm.swap x y ys)

theorem jsSort_perm (cmp : α → α → Int) (l : List α) :
    List.Perm (jsSort cmp l) l := by
  suffices h : ∀ (l acc : List α),
      List.Perm (l.foldl (fun acc x => jsInsert cmp x acc) acc) (acc ++ l) by
    simpa using h l []
  intro l
  induction l with
  | nil => intro acc; simp
  | cons x xs ih =>
    intro acc
    refine ((ih (jsInsert cmp x acc)).trans ?_)
    exact ((jsInsert_perm cmp x acc).append_right xs).trans List.perm_middle.symm

theorem mem_jsSort {cmp : α → α → Int} {l : List α} {z : α} :
    z ∈ jsSort cmp l ↔ z ∈ l :=
  (jsSort_perm cmp l).mem_iff

/-- Inserting a committed signature into a sorted list of committed
signatures keeps it sorted (w.r.t. the comparer's order). -/
theorem pairwise_jsInsert {x : Signature} (hx : Committed x) :
    ∀ {l : List Signature}, (∀ y ∈ l, Committed y) → l.Pairwise sigLE →
      (jsInsert signatureComparer x l).Pairwise sigLE
  | [], _, _ => by simp [jsInsert]
  | y :: ys, hall, hp => by
    have hy : Committed y := hall y (List.mem_cons_self y ys)
    have hys : ∀ z ∈ ys, Committed z := fun z hz => hall z (List.mem_cons_of_mem y hz)
    rw [List.pairwise_cons] at hp
    obtain ⟨hyall, hpys⟩ := hp
    unfold jsInsert
    split
    · -- x goes first: x :: y :: ys
      rename_i hlt
      rw [List.pairwise_cons]
      refine ⟨?_, List.pairwise_cons.mpr ⟨hyall, hpys⟩⟩
      intro z hz
      rcases List.mem_cons.mp hz with rfl | hz
      · exact sigLE_of_lt hlt
      · exact sigLE_trans hx hy (hys z hz) (sigLE_of_lt hlt) (hyall z hz)
    · -- y stays first: y :: jsInsert x ys
      rename_i hnlt
      rw [List.pairwise_cons]
      refine ⟨?_, pairwise_jsInsert hx hys hpys⟩
      intro z hz
      rcases mem_jsInsert.mp hz with rfl | hz
      · exact sigLE_of_not_lt hx hy hnlt
      · exact hyall z hz

/-- Sorting a list of committed signatures with the comparer yields a
list sorted w.r.t. the comparer's order. -/
theorem pairwise_jsSort {l : List Signature} (hall : ∀ y ∈ l, Committed y) :
    (jsSort signatureComparer l).Pairwise sigLE := by
  suffices h : ∀ (l acc : List Signature), (∀ y ∈ l, Committed y) →
      (∀ y ∈ acc, Committed y) → acc.Pairwise sigLE →
      (l.foldl (fun acc x => jsInsert signatureComparer x acc) acc).Pairwise sigLE by
    exact h l [] hall (by simp) (by simp)
  intro l
  induction l with
  | nil => intro acc _ _ hacc; simpa using hacc
  | cons x xs ih =>
    intro acc hl haccC hacc
    have hx : Committed x := hl x (List.mem_cons_self x xs)
    refine ih _ (fun y hy => hl y (List.mem_cons_of_mem x hy)) ?_
      (pairwise_jsInsert hx haccC hacc)
    intro y hy
    rcases mem_jsInsert.mp hy with rfl | hy
    · exact hx
    · exact haccC y hy

/-- In a sorted list of committed signatures, the head's ordering key is
lexicographically maximal. -/
theorem head_key_max {l : List Signature} {hd : Signature}
    (hall : ∀ y ∈ l, Committed y) (hp : l.Pairwise sigLE)
    (hh : l.head? = some hd) : ∀ x ∈ l, keyLE (sigKey x) (sigKey hd) := by
  cases l with
  | nil => cases hh
  | cons a t =>
    obtain rfl : a = hd := by simpa using hh
    rw [List.pairwise_cons] at hp
    intro x hx
    rcases List.mem_cons.mp hx with rfl | hx
    · exact keyLE_refl _
    · exact (signatureComparer_le_iff (hall a (List.mem_cons_self a t))
        (hall x (List.mem_cons_of_mem a hx))).mp (hp.1 x hx)

/-! ## Association-map lemmas -/

theorem mapHas_eq_isSome (m : SigMap) (u : String) :
    mapHas m u = (mapFind? m u).isSome := by
  unfold mapHas mapFind?
  cases m.find? (fun e => e.1 = u) <;> simp

theorem mapFind?_mapValues (f : String → List Signature → List Signature)
    (m : SigMap) (u : String) :
    mapFind? (m.map (fun e => (e.1, f e.1 e.2))) u = (mapFind? m u).map (f u) := by
  induction m with
  | nil => simp [mapFind?]
  | cons e rest ih =>
    by_cases he : e.1 = u
    · subst he
      simp [mapFind?]
    · unfold mapFind? at *
      rw [List.map_cons, List.find?_cons_of_neg _ (by simpa using he),
        List.find?_cons_of_neg _ (by simpa using he)]
      exact ih

theorem mapFind?_append_left {m₁ m₂ : SigMap} {u : String} {l : List Signature}
    (h : mapFind? m₁ u = some l) : mapFind? (m₁ ++ m₂) u = some l := by
  unfold mapFind? at *
  cases hf : m₁.find? (fun e => e.1 = u) with
  | none => rw [hf] at h; cases h
  | some e =>
    rw [hf] at h
    rw [List.find?_append, hf]
    simpa using h

theorem mapFind?_append_right {m₁ m₂ : SigMap} {u : String}
    (h : mapFind? m₁ u = none) : mapFind? (m₁ ++ m₂) u = mapFind? m₂ u := by
  unfold mapFind? at *
  cases hf : m₁.find? (fun e => e.1 = u) with
  | none => rw [List.find?_append, hf, Option.none_or]
  | some e => rw [hf] at h; cases h

theorem mapFind?_none_of_not_has {m : SigMap} {u : String}
    (h : ¬ mapHas m u = true) : mapFind? m u = none := by
  rw [mapHas_eq_isSome] at h
  cases hm : mapFind? m u with
  | none => rfl
  | some l => rw [hm] at h; simp at h

theorem mapFind?_singleton_self (u : String) (l : List Signature) :
    mapFind? [(u, l)] u = some l := by
  simp [mapFind?, List.find?_cons]

theorem mapFind?_singleton_ne {u v : String} (l : List Signature)
    (h : ¬ u = v) : mapFind? [(u, l)] v = none := by
  simp [mapFind?, List.find?_cons, h]

/-- Signature `x` is in the list stored under `u`. -/
def SigIn (m : SigMap) (u : String) (x : Signature) : Prop :=
  ∃ l, mapFind? m u = some l ∧ x ∈ l

theorem sigIn_mapPush_self (m : SigMap) (u : String) (s : Signature) :
    SigIn (mapPush m u s) u s := by
  unfold mapPush
  by_cases h : mapHas m u
  · rw [if_pos h]
    rw [mapHas_eq_isSome] at h
    obtain ⟨l, hl⟩ := Option.isSome_iff_exists.mp h
    refine ⟨l ++ [s], ?_, by simp⟩
    rw [mapFind?_mapValues (fun k l => if k = u then l ++ [s] else l), hl]
    simp
  · rw [if_neg h]
    refine ⟨[s], ?_, by simp⟩
    rw [mapFind?_append_right (mapFind?_none_of_not_has h)]
    exact mapFind?_singleton_self u [s]

theorem sigIn_mapPush_mono {m : SigMap} {v : String} {x : Signature}
    (u : String) (s : Signature) (h : SigIn m v x) :
    SigIn (mapPush m u s) v x := by
  obtain ⟨l, hl, hx⟩ := h
  unfold mapPush
  by_cases hh : mapHas m u
  · rw [if_pos hh]
    refine ⟨if v = u then l ++ [s] else l, ?_, ?_⟩
    · rw [mapFind?_mapValues (fun k l => if k = u then l ++ [s] else l), hl]
      rfl
    · split <;> simp [hx]
  · rw [if_neg hh]
    exact ⟨l, mapFind?_append_left hl, hx⟩

theorem sigIn_addLocalSignature_self (m : SigMap) (s : Signature) (srt : Bool) :
    SigIn (addLocalSignature m s srt) s.user s := by
  unfold addLocalSignature
  by_cases h : mapHas m s.user
  · rw [if_pos h]
    rw [mapHas_eq_isSome] at h
    obtain ⟨l, hl⟩ := Option.isSome_iff_exists.mp h
    refine ⟨if srt then jsSort signatureComparer (l ++ [s]) else l ++ [s], ?_, ?_⟩
    · rw [mapFind?_mapValues
        (fun k l => if k = s.user then
          (if srt then jsSort signatureComparer (l ++ [s]) else l ++ [s]) else l), hl]
      simp
    · split
      · exact mem_jsSort.mpr (by simp)
      · simp
  · rw [if_neg h]
    refine ⟨[s], ?_, by simp⟩
    rw [mapFind?_append_right (mapFind?_none_of_not_has h)]
    exact mapFind?_singleton_self s.user [s]

theorem sigIn_addLocalSignature_mono {m : SigMap} {v : String} {x : Signature}
    (s : Signature) (srt : Bool) (h : SigIn m v x) :
    SigIn (addLocalSignature m s srt) v x := by
  obtain ⟨l, hl, hx⟩ := h
  unfold addLocalSignature
  by_cases hh : mapHas m s.user
  · rw [if_pos hh]
    refine ⟨if v = s.user then
        (if srt then jsSort signatureComparer (l ++ [s]) else l ++ [s]) else l, ?_, ?_⟩
    · rw [mapFind?_mapValues
        (fun k l => if k = s.user then
          (if srt then jsSort signatureComparer (l ++ [s]) else l ++ [s]) else l), hl]
      rfl
    · split
      · split
        · exact mem_jsSort.mpr (by simp [hx])
        · simp [hx]
      · exact hx
  · rw [if_neg hh]
    exact ⟨l, mapFind?_append_left hl, hx⟩

/-- Every signature stored anywhere in the map satisfies `P`. -/
def MapAll (P : Signature → Prop) (m : SigMap) : Prop :=
  ∀ u l, mapFind? m u = some l → ∀ x ∈ l, P x

theorem mapAll_nil (P : Signature → Prop) : MapAll P [] := by
  intro u l hl
  simp [mapFind?] at hl

theorem mapAll_mapPush {P : Signature → Prop} {m : SigMap} {u : String}
    {s : Signature} (hm : MapAll P m) (hs : P s) : MapAll P (mapPush m u s) := by
  intro v l hl x hx
  unfold mapPush at hl
  by_cases hh : mapHas m u
  · rw [if_pos hh, mapFind?_mapValues (fun k l => if k = u then l ++ [s] else l)] at hl
    cases hm' : mapFind? m v with
    | none => rw [hm'] at hl; cases hl
    | some l₀ =>
      rw [hm'] at hl
      obtain rfl : (if v = u then l₀ ++ [s] else l₀) = l := by simpa using hl
      split at hx
      · rcases List.mem_append.mp hx with hx | hx
        · exact hm v l₀ hm' x hx
        · obtain rfl : x = s := by simpa using hx
          exact hs
      · exact hm v l₀ hm' x hx
  · rw [if_neg hh] at hl
    cases hm' : mapFind? m v with
    | some l₀ =>
      rw [mapFind?_append_left hm'] at hl
      obtain rfl : l₀ = l := by simpa using hl
      exact hm v l₀ hm' x hx
    | none =>
      rw [mapFind?_append_right hm'] at hl
      by_cases hv : u = v
      · subst hv
        rw [mapFind?_singleton_self] at hl
        obtain rfl : [s] = l := by simpa using hl
        obtain rfl : x = s := by simpa using hx
        exact hs
      · rw [mapFind?_singleton_ne _ hv] at hl
        cases hl

theorem mapAll_foldl_mapPush {P : Signature → Prop} {sigs : List Signature}
    {m : SigMap} (hs : ∀ s ∈ sigs, P s) (hm : MapAll P m) :
    MapAll P (sigs.foldl (fun m s => mapPush m s.user s) m) := by
  induction sigs generalizing m with
  | nil => exact hm
  | cons s rest ih =>
    exact ih (fun t ht => hs t (List.mem_cons_of_mem s ht))
      (mapAll_mapPush hm (hs s (List.mem_cons_self s rest)))

/-! ## Sortedness of the built snapshot (claim C1) -/

theorem getSignees_entry {pv : List (List Signature)} {now : Nat} {u : String}
    {l : List Signature} (h : mapFind? (getSignees pv now).map u = some l) :
    ∃ l₀, mapFind? (pv.flatten.foldl (fun m s => mapPush m s.user s) []) u = some l₀ ∧
      l = jsSort signatureComparer l₀ := by
  unfold getSignees at h
  rw [mapFind?_mapValues (fun _ l => jsSort signatureComparer l)] at h
  cases hf : mapFind? (pv.flatten.foldl (fun m s => mapPush m s.user s) []) u with
  | none => rw [hf] at h; cases h
  | some l₀ =>
    rw [hf] at h
    exact ⟨l₀, rfl, by simpa using h.symm⟩

theorem addLocalSignature_entry {m : SigMap} {s : Signature} {l : List Signature}
    (h : mapFind? (addLocalSignature m s true) s.user = some l) :
    (∃ l₀, mapFind? m s.user = some l₀ ∧ l = jsSort signatureComparer (l₀ ++ [s]))
    ∨ (mapFind? m s.user = none ∧ l = [s]) := by
  unfold addLocalSignature at h
  by_cases hh : mapHas m s.user
  · rw [if_pos hh, mapFind?_mapValues
      (fun k l => if k = s.user then
        (if true then jsSort signatureComparer (l ++ [s]) else l ++ [s]) else l)] at h
    cases hf : mapFind? m s.user with
    | none => rw [hf] at h; cases h
    | some l₀ =>
      rw [hf] at h
      refine Or.inl ⟨l₀, rfl, ?_⟩
      simpa using h.symm
  · rw [if_neg hh] at h
    have hn := mapFind?_none_of_not_has hh
    rw [mapFind?_append_right hn, mapFind?_singleton_self] at h
    exact Or.inr ⟨hn, by simpa using h.symm⟩

/-- C1 — the claim as stated fails on the code (see the counterexample
below); this is the amended version.  Provided every signature involved
carries its `gist_committed_at` field, every signatory list — whether
produced by `getSignees` or updated at the uploaded user's key by
`addLocalSignature` with sorting enabled — is sorted descending by the
(created_at, gist_committed_at, updated_at) lexicographic key, and index 0
holds a signature whose key is maximal in the list. -/
theorem snapshot_lists_sorted_of_committed :
    (∀ (pv : List (List Signature)) (now : Nat) (u : String) (l : List Signature),
      (∀ s ∈ pv.flatten, Committed s) →
      mapFind? (getSignees pv now).map u = some l →
      l.Pairwise sigLE ∧
        ∀ hd, l.head? = some hd → ∀ x ∈ l, keyLE (sigKey x) (sigKey hd))
    ∧ (∀ (m : SigMap) (s : Signature) (l : List Signature),
      MapAll Committed m → Committed s →
      mapFind? (addLocalSignature m s true) s.user = some l →
      l.Pairwise sigLE ∧
        ∀ hd, l.head? = some hd → ∀ x ∈ l, keyLE (sigKey x) (sigKey hd)) := by
  constructor
  · intro pv now u l hcom h
    obtain ⟨l₀, hl₀, rfl⟩ := getSignees_entry h
    have hgrp : MapAll Committed (pv.flatten.foldl (fun m s => mapPush m s.user s) []) :=
      mapAll_foldl_mapPush hcom (mapAll_nil _)
    have hall₀ : ∀ y ∈ l₀, Committed y := hgrp u l₀ hl₀
    have hall : ∀ y ∈ jsSort signatureComparer l₀, Committed y :=
      fun y hy => hall₀ y (mem_jsSort.mp hy)
    have hp := pairwise_jsSort hall₀
    exact ⟨hp, fun hd hhd => head_key_max hall hp hhd⟩
  · intro m s l hm hs h
    rcases addLocalSignature_entry h with ⟨l₀, hl₀, rfl⟩ | ⟨-, rfl⟩
    · have hall₀ : ∀ y ∈ l₀ ++ [s], Committed y := by
        intro y hy
        rcases List.mem_append.mp hy with hy | hy
        · exact hm s.user l₀ hl₀ y hy
        · obtain rfl : y = s := by simpa using hy
          exact hs
      have hall : ∀ y ∈ jsSort signatureComparer (l₀ ++ [s]), Committed y :=
        fun y hy => hall₀ y (mem_jsSort.mp hy)
      have hp := pairwise_jsSort hall₀
      exact ⟨hp, fun hd hhd => head_key_max hall hp hhd⟩
    · refine ⟨by simp, ?_⟩
      intro hd hhd x hx
      have h1 : s = hd := by simpa using hhd
      have h2 : x = s := by simpa using hx
      rw [h2, h1]
      exact keyLE_refl _

/-- An upstream signature with version commit date `2024-01-02`. -/
def cexX : Signature :=
  { sigId := "x", user := "alice", created_at := "2024-01-01",
    updated_at := "2024-01-01", gist_committed_at := some "2024-01-02" }

/-- A signature lacking `gist_committed_at` (as locally uploaded or
version-unmatched records do), tying on `created_at`. -/
def cexY : Signature :=
  { sigId := "y", user := "alice", created_at := "2024-01-01",
    updated_at := "2024-01-01", gist_committed_at := none }

/-- An upstream signature with the older version commit date
`2024-01-01`. -/
def cexZ : Signature :=
  { sigId := "z", user := "alice", created_at := "2024-01-01",
    updated_at := "2024-01-01", gist_committed_at := some "2024-01-01" }

/-- C1 counterexample: on this concrete reload input the built snapshot
stores alice's list as `[cexZ, cexY, cexX]`, yet
`signatureComparer cexZ cexX = 1`: the ordering rule requires `cexZ`
strictly after `cexX` (its key is lexicographically smaller), so the
list is not sorted by the rule and index 0 does not hold a maximal key.
The comparer is inconsistent when a `gist_committed_at`-less signature
ties on `created_at` with committed ones. -/
theorem snapshot_lists_sorted_cex :
    mapFind? (getSignees [[cexX], [cexY], [cexZ]] 0).map "alice"
        = some [cexZ, cexY, cexX]
    ∧ signatureComparer cexZ cexX = 1 := by
  constructor
  · simp +decide [getSignees, mapPush, mapHas, mapFind?, jsSort, jsInsert,
      signatureComparer, jsLt, jsNe, cexX, cexY, cexZ]
  · simp +decide [signatureComparer, jsLt, jsNe, cexX, cexZ]

/-- Witness for the amended C1 theorem: a concrete one-signature reload
where every hypothesis is discharged by evaluation. -/
theorem snapshot_lists_sorted_of_committed_witness :
    ([cexX] : List Signature).Pairwise sigLE ∧
      ∀ hd, ([cexX] : List Signature).head? = some hd →
        ∀ x ∈ [cexX], keyLE (sigKey x) (sigKey hd) :=
  snapshot_lists_sorted_of_committed.1 [[cexX]] 0 "alice" [cexX]
    (by decide) (by decide)

/-! ## Non-emptiness of stored signatory lists (claim C10) -/

theorem mapNonempty_mapPush {m : SigMap} {u : String} {s : Signature}
    (hm : ∀ v l, mapFind? m v = some l → l ≠ []) :
    ∀ v l, mapFind? (mapPush m u s) v = some l → l ≠ [] := by
  intro v l hl
  unfold mapPush at hl
  by_cases hh : mapHas m u
  · rw [if_pos hh, mapFind?_mapValues (fun k l => if k = u then l ++ [s] else l)] at hl
    cases hf : mapFind? m v with
    | none => rw [hf] at hl; cases hl
    | some l₀ =>
      rw [hf] at hl
      obtain rfl : (if v = u then l₀ ++ [s] else l₀) = l := by simpa using hl
      split
      · simp
      · exact hm v l₀ hf
  · rw [if_neg hh] at hl
    cases hf : mapFind? m v with
    | some l₀ =>
      rw [mapFind?_append_left hf] at hl
      obtain rfl : l₀ = l := by simpa using hl
      exact hm v l₀ hf
    | none =>
      rw [mapFind?_append_right hf] at hl
      by_cases hv : u = v
      · subst hv
        rw [mapFind?_singleton_self] at hl
        obtain rfl : [s] = l := by simpa using hl
        simp
      · rw [mapFind?_singleton_ne _ hv] at hl
        cases hl

theorem mapNonempty_foldl_mapPush {sigs : List Signature} {m : SigMap}
    (hm : ∀ v l, mapFind? m v = some l → l ≠ []) :
    ∀ v l, mapFind? (sigs.foldl (fun m s => mapPush m s.user s) m) v = some l →
      l ≠ [] := by
  induction sigs generalizing m with
  | nil => exact hm
  | cons s rest ih => exact ih (mapNonempty_mapPush hm)

theorem jsSort_ne_nil {cmp : α → α → Int} {l : List α} (h : l ≠ []) :
    jsSort cmp l ≠ [] := by
  intro hc
  exact h (List.eq_nil_of_length_eq_zero
    (((jsSort_perm cmp l).length_eq.symm).trans (by rw [hc]; rfl)))

/-- C10: every value stored in the signee map — whether created by
`getSignees`' grouping (`map.set(user, [signature])` / push) or by
`addLocalSignature` — is a non-empty list, so reading index 0 of a
signatory list (as the revocation check and `signeeComparer` do) is
never out of bounds for a user present in the map. -/
theorem signee_lists_nonempty :
    (∀ (pv : List (List Signature)) (now : Nat) (u : String) (l : List Signature),
      mapFind? (getSignees pv now).map u = some l → l ≠ [])
    ∧ (∀ (m : SigMap) (s : Signature) (srt : Bool),
      (∀ v l, mapFind? m v = some l → l ≠ []) →
      ∀ v l, mapFind? (addLocalSignature m s srt) v = some l → l ≠ []) := by
  constructor
  · intro pv now u l hl
    obtain ⟨l₀, hl₀, rfl⟩ := getSignees_entry hl
    exact jsSort_ne_nil (mapNonempty_foldl_mapPush (fun v l h => by
      simp [mapFind?] at h) u l₀ hl₀)
  · intro m s srt hm v l hl
    unfold addLocalSignature at hl
    by_cases hh : mapHas m s.user
    · rw [if_pos hh, mapFind?_mapValues
        (fun k l => if k = s.user then
          (if srt then jsSort signatureComparer (l ++ [s]) else l ++ [s]) else l)] at hl
      cases hf : mapFind? m v with
      | none => rw [hf] at hl; cases hl
      | some l₀ =>
        rw [hf] at hl
        obtain rfl : (if v = s.user then
            (if srt then jsSort signatureComparer (l₀ ++ [s]) else l₀ ++ [s]) else l₀)
            = l := by simpa using hl
        split
        · split
          · exact jsSort_ne_nil (by simp)
          · simp
        · exact hm v l₀ hf
    · rw [if_neg hh] at hl
      cases hf : mapFind? m v with
      | some l₀ =>
        rw [mapFind?_append_left hf] at hl
        obtain rfl : l₀ = l := by simpa using hl
        exact hm v l₀ hf
      | none =>
        rw [mapFind?_append_right hf] at hl
        by_cases hv : s.user = v
        · subst hv
          rw [mapFind?_singleton_self] at hl
          obtain rfl : [s] = l := by simpa using hl
          simp
        · rw [mapFind?_singleton_ne _ hv] at hl
          cases hl

/-- Witness for C10 at a concrete map and upload. -/
theorem signee_lists_nonempty_witness :
    ([cexX] : List Signature) ≠ [] ∧ ([cexY] : List Signature) ≠ [] :=
  ⟨signee_lists_nonempty.1 [[cexX]] 0 "alice" [cexX] (by decide),
   signee_lists_nonempty.2 [] cexY false (fun v l h => by simp [mapFind?] at h)
     "alice" [cexY] (by decide)⟩

/-! ## Errors -/

/-- A JS `Error` value as the reload/cache code builds them: a message,
optionally a `cause`, or an `AggregateError` with an `errors` array. -/
inductive JsError where
  | simple (message : String)
  | withCause (message : String) (cause : JsError)
  | aggregate (message : String) (errors : List JsError)

/-! ## Local signatures on disk: `getLocalSignatures` (claim C9) -/

/-- `getLocalSignatures` from `server.mjs`: returns `[]` when local storage
is not configured; otherwise reads every file of the signatures directory,
parses each as JSON and pushes the result, while a file whose read (or
parse, via the rejected chained promise) fails is logged with
`console.warn` and skipped; `Promise.allSettled` then waits for every file
before the collected list is returned.  Each file's read+parse outcome is
supplied as input. -/
def getLocalSignatures (fileLocal : Bool)
    (fileResults : List (Except JsError Signature)) : List Signature :=
  if !fileLocal then []
  else fileResults.foldl (fun acc r =>
    match r with
    | .ok s => acc ++ [s]
    | .error _ => acc) []

theorem getLocalSignatures_eq_filterMap (res : List (Except JsError Signature)) :
    getLocalSignatures true res = res.filterMap Except.toOption := by
  unfold getLocalSignatures
  rw [if_neg (by simp)]
  suffices h : ∀ (res : List (Except JsError Signature)) (acc : List Signature),
      res.foldl (fun acc r =>
        match r with
        | .ok s => acc ++ [s]
        | .error _ => acc) acc = acc ++ res.filterMap Except.toOption by
    simpa using h res []
  intro res
  induction res with
  | nil => intro acc; simp
  | cons r rest ih =>
    intro acc
    cases r with
    | ok s => simp [List.foldl_cons, ih, Except.toOption]
    | error e => simp [List.foldl_cons, ih, Except.toOption]

/-- C9: with local storage configured, a failing record never fails or
blocks the whole read: the returned list contains exactly the signatures
of the files that read and parsed successfully, and dropping the failing
records from the input changes nothing. -/
theorem getLocalSignatures_skips_failures :
    ∀ (res : List (Except JsError Signature)),
      (∀ s : Signature, s ∈ getLocalSignatures true res ↔ Except.ok s ∈ res)
      ∧ getLocalSignatures true res
          = getLocalSignatures true (res.filter (fun r => r.toOption.isSome)) := by
  intro res
  constructor
  · intro s
    rw [getLocalSignatures_eq_filterMap, List.mem_filterMap]
    constructor
    · rintro ⟨r, hr, ho⟩
      cases r with
      | ok t => obtain rfl : t = s := by simpa [Except.toOption] using ho
                exact hr
      | error e => simp [Except.toOption] at ho
    · intro h
      exact ⟨Except.ok s, h, rfl⟩
  · rw [getLocalSignatures_eq_filterMap, getLocalSignatures_eq_filterMap]
    induction res with
    | nil => rfl
    | cons r rest ih =>
      cases r with
      | ok s => simpa [Except.toOption] using ih
      | error e => simpa [Except.toOption] using ih

/-- Witness for C9 on a concrete directory with one good and one corrupt
record. -/
theorem getLocalSignatures_skips_failures_witness :
    (cexX ∈ getLocalSignatures true [Except.ok cexX, Except.error (JsError.simple "bad")]
      ↔ Except.ok cexX ∈ ([Except.ok cexX, Except.error (JsError.simple "bad")] :
          List (Except JsError Signature))) ∧
    getLocalSignatures true [Except.ok cexX, Except.error (JsError.simple "bad")]
      = getLocalSignatures true
          (([Except.ok cexX, Except.error (JsError.simple "bad")] :
            List (Except JsError Signature)).filter (fun r => r.toOption.isSome)) :=
  ⟨(getLocalSignatures_skips_failures
      [Except.ok cexX, Except.error (JsError.simple "bad")]).1 cexX,
   (getLocalSignatures_skips_failures
      [Except.ok cexX, Except.error (JsError.simple "bad")]).2⟩

/-! ## Upstream document resolution: `getGist` -/

/-- One entry of the upstream response's `history` array. -/
structure HistoryEntry where
  version : String
  committed_at : String
  url : String

/-- The upstream `/cla/getGist` response body (the `files` object is
represented by its key list, `Object.keys(response.data.files)`). -/
structure GistResponse where
  html_url : String
  files : List String
  history : List HistoryEntry

/-- One normalized document version. -/
structure GistVersion where
  version : String
  committed : String
  url : String

/-- The normalized document identity built by `getGist`. -/
structure Gist where
  url : String
  filename : Option String
  versions : List GistVersion

/-- `getGist` from `server.mjs`: normalizes the upstream response; if the
version history is empty it throws `No gist history available.`, and the
trailing `.catch` wraps any failure — the network error or that throw —
into `Failed to receive gist for the organization.` with the original as
`cause`. -/
def getGist (call : Except JsError GistResponse) : Except JsError Gist :=
  match call with
  | .error e =>
    .error (JsError.withCause "Failed to receive gist for the organization." e)
  | .ok data =>
    let gist : Gist :=
      { url := data.html_url
        filename := data.files.find? (fun f => f ≠ "metadata")
        versions := data.history.map (fun h =>
          { version := h.version, committed := h.committed_at, url := h.url }) }
    if gist.versions.length > 0 then
      .ok gist
    else
      .error (JsError.withCause "Failed to receive gist for the organization."
        (JsError.simple "No gist history available."))

/-! ## The reload orchestrator: `globalReload` -/

/-- The I/O outcomes a single `globalReload` run observes: configuration
flags, the upstream results (`getGist`, then `getSignees` on its result),
the two file-cache reads, and the local-signature read started up front. -/
structure ReloadEnv where
  fileCache : Bool
  fileLocal : Bool
  gistResult : Except JsError Gist
  signeesResult : Gist → Except JsError Signees
  cacheGist : Except JsError Gist
  cacheSignees : Except JsError Signees
  localSignatures : Except JsError (List Signature)

/-- The module-level mutable state of `server.mjs`. -/
structure ServerState where
  globalError : Option JsError
  globalGist : Option Gist
  globalSignees : Option Signees

/-- The local-merge step at the end of `globalReload`: when local storage
is configured, await the signatures read and `addLocalSignature` each into
the signee map with sorting; any failure there (including the `TypeError`
of merging into a `null` map) is caught and logged, leaving `signees`
as it was. -/
def mergeLocalSignatures (env : ReloadEnv) (signees : Option Signees) :
    Option Signees :=
  if env.fileLocal then
    match env.localSignatures, signees with
    | .ok sigs, some s =>
      some { s with map := sigs.foldl (fun m sig => addLocalSignature m sig true) s.map }
    | _, _ => signees
  else signees

/-- The `catch` block of `globalReload` plus the function's tail: on
upstream failure `ex`, if the file cache is configured and not bypassed,
try both cache files (the first read landing in the local `gist` variable
even if the second fails); on fallback success clear the error and publish
the cached data; on fallback failure wrap both errors in an
`AggregateError`; then either throw (state already carrying the error,
publication skipped) or publish whatever the locals hold. -/
def reloadCatch (env : ReloadEnv) (st : ServerState)
    (ignoreErrors disableCache : Bool) (gist : Option Gist) (ex : JsError) :
    ServerState × Option JsError :=
  if env.fileCache && !disableCache then
    match env.cacheGist with
    | .ok g =>
      match env.cacheSignees with
      | .ok s =>
        ({ globalError := none, globalGist := some g
           globalSignees := mergeLocalSignatures env (some s) }, none)
      | .error exfs =>
        let ex2 := JsError.aggregate "Both CLA and file cache failed." [ex, exfs]
        if ignoreErrors then
          ({ globalError := some ex2, globalGist := some g
             globalSignees := mergeLocalSignatures env none }, none)
        else ({ st with globalError := some ex2 }, some ex2)
    | .error exfs =>
      let ex2 := JsError.aggregate "Both CLA and file cache failed." [ex, exfs]
      if ignoreErrors then
        ({ globalError := some ex2, globalGist := gist
           globalSignees := mergeLocalSignatures env none }, none)
      else ({ st with globalError := some ex2 }, some ex2)
  else
    if ignoreErrors then
      ({ globalError := some ex, globalGist := gist
         globalSignees := mergeLocalSignatures env none }, none)
    else ({ st with globalError := some ex }, some ex)

/-- `globalReload` from `server.mjs`.  Returns the new module state and
the thrown error, if any.  The best-effort cache write on the success
path has no effect on the modelled state and is omitted (its failure is
caught and logged). -/
def globalReload (env : ReloadEnv) (st : ServerState)
    (ignoreErrors disableCache : Bool) : ServerState × Option JsError :=
  match env.gistResult with
  | .error e => reloadCatch env st ignoreErrors disableCache none e
  | .ok g =>
    match env.signeesResult g with
    | .error e => reloadCatch env st ignoreErrors disableCache (some g) e
    | .ok s =>
      ({ globalError := none, globalGist := some g
         globalSignees := mergeLocalSignatures env (some s) }, none)

/-- The error with which the upstream phase (`getGist` then `getSignees`)
of a reload fails, if it fails. -/
def upstreamError (env : ReloadEnv) : Option JsError :=
  match env.gistResult with
  | .error e => some e
  | .ok g =>
    match env.signeesResult g with
    | .error e => some e
    | .ok _ => none

/-- The error with which the file-cache fallback read fails, if it does
(first failure of the two sequential reads). -/
def cacheReadError (env : ReloadEnv) : Option JsError :=
  match env.cacheGist with
  | .error e => some e
  | .ok _ =>
    match env.cacheSignees with
    | .error e => some e
    | .ok _ => none

/-- On a surfaced (thrown) error, `reloadCatch` leaves the published
gist/signee state untouched. -/
theorem reloadCatch_thrown {env : ReloadEnv} {st : ServerState}
    {ie dc : Bool} {gist : Option Gist} {ex e : JsError}
    (h : (reloadCatch env st ie dc gist ex).2 = some e) :
    (reloadCatch env st ie dc gist ex).1.globalGist = st.globalGist
    ∧ (reloadCatch env st ie dc gist ex).1.globalSignees = st.globalSignees := by
  by_cases hc : (env.fileCache && !dc) = true
  · cases hcg : env.cacheGist with
    | ok g =>
      cases hcs : env.cacheSignees with
      | ok s => simp [reloadCatch, hc, hcg, hcs] at h
      | error exfs =>
        by_cases hie : ie = true
        · simp [reloadCatch, hc, hcg, hcs, hie] at h
        · simp only [Bool.not_eq_true] at hie
          simp [reloadCatch, hc, hcg, hcs, hie]
    | error exfs =>
      by_cases hie : ie = true
      · simp [reloadCatch, hc, hcg, hie] at h
      · simp only [Bool.not_eq_true] at hie
        simp [reloadCatch, hc, hcg, hie]
  · simp only [Bool.not_eq_true] at hc
    by_cases hie : ie = true
    · simp [reloadCatch, hc, hie] at h
    · simp only [Bool.not_eq_true] at hie
      simp [reloadCatch, hc, hie]

/-- C2: when the upstream fetch fails during a reload that does not
bypass the cache, with the file cache configured and both cache reads
succeeding, the reload completes without throwing, the global error
state is cleared (Healthy), and the published snapshot is exactly the
cache-loaded data with any local signatures merged in. -/
theorem reload_fallback_success (env : ReloadEnv) (st : ServerState)
    (ignoreErrors : Bool) (e : JsError) (g : Gist) (s : Signees)
    (hup : upstreamError env = some e)
    (hfc : env.fileCache = true)
    (hcg : env.cacheGist = Except.ok g)
    (hcs : env.cacheSignees = Except.ok s) :
    globalReload env st ignoreErrors false
      = ({ globalError := none, globalGist := some g
           globalSignees := mergeLocalSignatures env (some s) }, none) := by
  cases hg : env.gistResult with
  | error e' => simp [globalReload, hg, reloadCatch, hfc, hcg, hcs]
  | ok g' =>
    cases hs : env.signeesResult g' with
    | error e' => simp [globalReload, hg, hs, reloadCatch, hfc, hcg, hcs]
    | ok s' =>
      exfalso
      simp [upstreamError, hg, hs] at hup

/-- C3: whenever `globalReload` surfaces an error (throws), the published
snapshot is untouched: the gist and signee state after the failed call
are exactly what they were before it (the throw happens before the
publication step; only the error state is updated). -/
theorem reload_error_atomic (env : ReloadEnv) (st : ServerState)
    (ignoreErrors disableCache : Bool) (e : JsError)
    (h : (globalReload env st ignoreErrors disableCache).2 = some e) :
    (globalReload env st ignoreErrors disableCache).1.globalGist = st.globalGist
    ∧ (globalReload env st ignoreErrors disableCache).1.globalSignees
        = st.globalSignees := by
  cases hg : env.gistResult with
  | error e' =>
    simp only [globalReload, hg] at h ⊢
    exact reloadCatch_thrown h
  | ok g' =>
    cases hs : env.signeesResult g' with
    | error e' =>
      simp only [globalReload, hg, hs] at h ⊢
      exact reloadCatch_thrown h
    | ok s' =>
      simp [globalReload, hg, hs] at h

/-- C6: if the upstream resolve-document call succeeds but returns an
empty version history, `getGist` fails (with the wrapped
`No gist history available.` cause) instead of returning an
empty-but-valid document, and an explicit reload (`/reload` semantics:
errors surfaced, cache bypassed, so no usable fallback) both throws that
error and records it as the degraded global error state. -/
theorem empty_history_degrades :
    ∀ (data : GistResponse), data.history = [] →
      getGist (Except.ok data)
        = Except.error (JsError.withCause
            "Failed to receive gist for the organization."
            (JsError.simple "No gist history available."))
      ∧ ∀ (env : ReloadEnv) (st : ServerState),
          env.gistResult = getGist (Except.ok data) →
          (globalReload env st false true).2
              = some (JsError.withCause
                  "Failed to receive gist for the organization."
                  (JsError.simple "No gist history available."))
            ∧ (globalReload env st false true).1.globalError
              = some (JsError.withCause
                  "Failed to receive gist for the organization."
                  (JsError.simple "No gist history available.")) := by
  intro data hh
  have hge : getGist (Except.ok data)
      = Except.error (JsError.withCause
          "Failed to receive gist for the organization."
          (JsError.simple "No gist history available.")) := by
    simp [getGist, hh]
  refine ⟨hge, ?_⟩
  intro env st hg
  rw [hge] at hg
  constructor <;> simp [globalReload, hg, reloadCatch]

/-- C7: when the upstream fetch fails, the fallback is permitted and
configured, and the fallback read also fails, a non-silent reload throws
a single `AggregateError` (`Both CLA and file cache failed.`) holding
the upstream error and the fallback error as its two causes, and that
same `AggregateError` is recorded as the degraded-state reason. -/
theorem reload_fallback_failure_aggregate (env : ReloadEnv) (st : ServerState)
    (e f : JsError)
    (hup : upstreamError env = some e)
    (hfc : env.fileCache = true)
    (hcf : cacheReadError env = some f) :
    (globalReload env st false false).2
        = some (JsError.aggregate "Both CLA and file cache failed." [e, f])
      ∧ (globalReload env st false false).1.globalError
        = some (JsError.aggregate "Both CLA and file cache failed." [e, f]) := by
  have hcatch : ∀ gist, reloadCatch env st false false gist e = (⟨some (JsError.aggregate "Both CLA and file cache failed." [e, f]), st.globalGist, st.globalSignees⟩, some (JsError.aggregate "Both CLA and file cache failed." [e, f])) := by
    intro gist
    cases hcg : env.cacheGist with
    | ok g =>
      cases hcs : env.cacheSignees with
      | ok s => exfalso; simp [cacheReadError, hcg, hcs] at hcf
      | error exfs =>
        obtain rfl : exfs = f := by
          have := hcf
          simp [cacheReadError, hcg, hcs] at this
          exact this
        simp [reloadCatch, hfc, hcg, hcs]
    | error exfs =>
      obtain rfl : exfs = f := by
        have := hcf
        simp [cacheReadError, hcg] at this
        exact this
      simp [reloadCatch, hfc, hcg]
  cases hg : env.gistResult with
  | error e' =>
    obtain rfl : e' = e := by
      have := hup
      simp [upstreamError, hg] at this
      exact this
    simp only [globalReload, hg]
    rw [hcatch none]
    exact ⟨rfl, rfl⟩
  | ok g' =>
    cases hs : env.signeesResult g' with
    | error e' =>
      obtain rfl : e' = e := by
        have := hup
        simp [upstreamError, hg, hs] at this
        exact this
      simp only [globalReload, hg, hs]
      rw [hcatch (some g')]
      exact ⟨rfl, rfl⟩
    | ok s => exfalso; simp [upstreamError, hg, hs] at hup

/-! ## Concrete reload environments for the witnesses -/

/-- A concrete upstream failure. -/
def cexUpErr : JsError := JsError.simple "getaddrinfo ENOTFOUND cla-assistant.io"

/-- A concrete cache-read failure. -/
def cexFsErr : JsError := JsError.simple "ENOENT: no such file or directory"

/-- A concrete document identity. -/
def cexGist : Gist :=
  { url := "https://gist.example/org"
    filename := some "cla.md"
    versions := [{ version := "v1", committed := "2024-01-01", url := "https://gist.example/org/v1" }] }

/-- A concrete signee snapshot. -/
def cexSignees : Signees := { map := [("alice", [cexX])], timestamp := 0 }

/-- A concrete pre-reload module state. -/
def cexState : ServerState :=
  { globalError := none, globalGist := some cexGist, globalSignees := some cexSignees }

/-- Environment: upstream down, cache configured and readable. -/
def envFallbackOk : ReloadEnv :=
  { fileCache := true, fileLocal := false
    gistResult := Except.error cexUpErr
    signeesResult := fun _ => Except.ok cexSignees
    cacheGist := Except.ok cexGist
    cacheSignees := Except.ok cexSignees
    localSignatures := Except.ok [] }

/-- Environment: upstream down, no cache configured. -/
def envNoFallback : ReloadEnv :=
  { envFallbackOk with fileCache := false }

/-- Environment: upstream down, cache configured but unreadable. -/
def envFallbackFail : ReloadEnv :=
  { envFallbackOk with cacheGist := Except.error cexFsErr
                       cacheSignees := Except.error cexFsErr }

/-- An upstream resolve-document response with an empty version history. -/
def cexEmptyResp : GistResponse :=
  { html_url := "https://gist.example/org", files := ["cla.md"], history := [] }

/-- Environment: upstream resolve succeeds but with empty history. -/
def envEmptyHistory : ReloadEnv :=
  { envNoFallback with gistResult := getGist (Except.ok cexEmptyResp) }

/-- Witness for C2 at a concrete environment (startup semantics:
errors swallowed, cache not bypassed). -/
theorem reload_fallback_success_witness :
    globalReload envFallbackOk cexState true false
      = ({ globalError := none, globalGist := some cexGist
           globalSignees := mergeLocalSignatures envFallbackOk (some cexSignees) }, none) :=
  reload_fallback_success envFallbackOk cexState true cexUpErr cexGist cexSignees
    rfl rfl rfl rfl

/-- Witness for C3 at a concrete failing reload (`/reload` semantics). -/
theorem reload_error_atomic_witness :
    (globalReload envNoFallback cexState false true).1.globalGist = cexState.globalGist
    ∧ (globalReload envNoFallback cexState false true).1.globalSignees
        = cexState.globalSignees :=
  reload_error_atomic envNoFallback cexState false true cexUpErr rfl

/-- Witness for C6 at a concrete empty-history response. -/
theorem empty_history_degrades_witness :
    getGist (Except.ok cexEmptyResp)
        = Except.error (JsError.withCause
            "Failed to receive gist for the organization."
            (JsError.simple "No gist history available."))
    ∧ (globalReload envEmptyHistory cexState false true).1.globalError
        = some (JsError.withCause
            "Failed to receive gist for the organization."
            (JsError.simple "No gist history available.")) :=
  ⟨(empty_history_degrades cexEmptyResp rfl).1,
   ((empty_history_degrades cexEmptyResp rfl).2 envEmptyHistory cexState rfl).2⟩

/-- Witness for C7 at a concrete environment where upstream and cache
both fail. -/
theorem reload_fallback_failure_aggregate_witness :
    (globalReload envFallbackFail cexState false false).2
        = some (JsError.aggregate "Both CLA and file cache failed." [cexUpErr, cexFsErr])
    ∧ (globalReload envFallbackFail cexState false false).1.globalError
        = some (JsError.aggregate "Both CLA and file cache failed." [cexUpErr, cexFsErr]) :=
  reload_fallback_failure_aggregate envFallbackFail cexState cexUpErr cexFsErr
    rfl rfl rfl

/-! ## Local uploads: `signatureFromUpload` (claim C4) -/

/-- Hex digit used by percent-encoding (uppercase). -/
def hexDigit (n : Nat) : Char :=
  if n < 10 then Char.ofNat (48 + n) else Char.ofNat (55 + n)

/-- Characters `encodeURIComponent` leaves unescaped. -/
def uriUnreserved (c : Char) : Bool :=
  c.isAlphanum || c = '-' || c = '_' || c = '.' || c = '!' || c = '~'
    || c = '*' || c = Char.ofNat 39 || c = '(' || c = ')'

/-- JS `encodeURIComponent`: percent-encodes every UTF-8 byte of each
character outside the unreserved set. -/
def encodeURIComponent (s : String) : String :=
  String.mk (s.data.flatMap (fun c =>
    if uriUnreserved c then [c]
    else (String.utf8EncodeChar c).flatMap (fun b =>
      ['%', hexDigit (b.toNat / 16), hexDigit (b.toNat % 16)])))

/-- JS `a || b` on a possibly-undefined string: `b` when `a` is
`undefined` or empty. -/
def jsOrStr (a : Option String) (b : String) : String :=
  match a with
  | some s => if s = "" then b else s
  | none => b

/-- The upload form data assembled by the `/list` POST handler. -/
structure FormData where
  fileName : String
  fileOriginalName : Option String
  signerName : Option String
  signerEmail : Option String
  signerEmployer : Option String
  signedDate : Option String

/-- `signatureFromUpload` from `server.mjs`.  Effects and built-ins are
inputs: `uploader` is `getBasicUserName(request, CLA_SIGN_AUTH)` (`none`
models JS `null`, which string concatenation renders as `"null"`),
`uniqueId` is `nanoid()`, `now` is `new Date().toISOString()` and
`signedIso` is `new Date(formData.signedDate).toISOString()`. -/
def signatureFromUpload (uploader : Option String)
    (uniqueId now signedIso : String) (formData : FormData) : Signature :=
  let employer := jsOrStr (formData.signerEmployer.map (fun s => s.trim)) ""
  let isEmployed := employer ≠ "" && employer.toLower ≠ "none"
  let category := if isEmployed then
      "(c) I am contributing as an individual because, even though I am employed, my employer has and claims no rights to my contributions."
    else
      "(b) I am contributing as an individual because I am self-employed or unemployed. I have read and agree to the CLA."
  { sigId := uniqueId
    created_at := signedIso
    updated_at := now
    custom_fields := some
      [("name", jsOrStr formData.signerName "")
      ,("email", jsOrStr formData.signerEmail "")
      ,("employer", jsOrStr (some employer) "none")
      ,("category", category)]
    gist_url := some (encodeURIComponent formData.fileName)
    gist_filename := some (jsOrStr formData.fileOriginalName formData.fileName)
    origin := some ("local|" ++ uploader.getD "null")
    user := jsOrStr formData.signerEmail "" }

theorem sigIn_foldl_addLocal_mono {sigs : List Signature} {m : SigMap}
    {u : String} {x : Signature} (h : SigIn m u x) :
    SigIn (sigs.foldl (fun m s => addLocalSignature m s true) m) u x := by
  induction sigs generalizing m with
  | nil => exact h
  | cons s rest ih => exact ih (sigIn_addLocalSignature_mono s true h)

theorem sigIn_foldl_addLocal_self {sigs : List Signature} {m : SigMap}
    {x : Signature} (hx : x ∈ sigs) :
    SigIn (sigs.foldl (fun m s => addLocalSignature m s true) m) x.user x := by
  induction sigs generalizing m with
  | nil => cases hx
  | cons s rest ih =>
    rcases List.mem_cons.mp hx with rfl | hx
    · rw [List.foldl_cons]
      exact sigIn_foldl_addLocal_mono (sigIn_addLocalSignature_self m x true)
    · rw [List.foldl_cons]
      exact ih hx

/-- C4: an accepted upload's signature carries an `origin` starting with
the local-source tag `local|`; merging it with `addLocalSignature`
makes it present in the published map under its subject immediately; and
after any subsequent successful reload with local storage configured,
every signature returned by the durable local store (the upload
included) is present in the freshly built snapshot. -/
theorem local_signature_upload_visible :
    (∀ (uploader : Option String) (uniqueId now signedIso : String) (fd : FormData),
      ∃ rest, (signatureFromUpload uploader uniqueId now signedIso fd).origin
        = some ("local|" ++ rest))
    ∧ (∀ (m : SigMap) (uploader : Option String) (uniqueId now signedIso : String)
        (fd : FormData),
      SigIn (addLocalSignature m
          (signatureFromUpload uploader uniqueId now signedIso fd) true)
        (signatureFromUpload uploader uniqueId now signedIso fd).user
        (signatureFromUpload uploader uniqueId now signedIso fd))
    ∧ (∀ (env : ReloadEnv) (st : ServerState) (ie dc : Bool) (sig : Signature)
        (g : Gist) (s : Signees) (sigs : List Signature),
      env.fileLocal = true → env.localSignatures = Except.ok sigs → sig ∈ sigs →
      env.gistResult = Except.ok g → env.signeesResult g = Except.ok s →
      ∃ sn, (globalReload env st ie dc).1.globalSignees = some sn
        ∧ SigIn sn.map sig.user sig) := by
  refine ⟨?_, ?_, ?_⟩
  · intro uploader uniqueId now signedIso fd
    exact ⟨uploader.getD "null", rfl⟩
  · intro m uploader uniqueId now signedIso fd
    exact sigIn_addLocalSignature_self m _ true
  · intro env st ie dc sig g s sigs hfl hls hmem hg hs
    have hsn : (globalReload env st ie dc).1.globalSignees
        = some { s with map := sigs.foldl (fun m sg => addLocalSignature m sg true) s.map } := by
      simp [globalReload, hg, hs, mergeLocalSignatures, hfl, hls]
    exact ⟨_, hsn, sigIn_foldl_addLocal_self hmem⟩

/-- A concrete upload form. -/
def cexForm : FormData :=
  { fileName := "ada@example.com#1700000000000.pdf"
    fileOriginalName := some "cla.pdf"
    signerName := some "Ada"
    signerEmail := some "ada@example.com"
    signerEmployer := some "none"
    signedDate := some "2024-01-01" }

/-- Environment: upstream healthy, local storage configured and holding
one durable signature. -/
def envLocalOk : ReloadEnv :=
  { fileCache := false, fileLocal := true
    gistResult := Except.ok cexGist
    signeesResult := fun _ => Except.ok cexSignees
    cacheGist := Except.error cexFsErr
    cacheSignees := Except.error cexFsErr
    localSignatures := Except.ok [cexY] }

/-- Witness for C4 at a concrete upload and a concrete reload. -/
theorem local_signature_upload_visible_witness :
    (∃ rest, (signatureFromUpload (some "admin") "id1" "2024-01-02T00:00:00.000Z"
        "2024-01-01T00:00:00.000Z" cexForm).origin = some ("local|" ++ rest))
    ∧ SigIn (addLocalSignature []
        (signatureFromUpload (some "admin") "id1" "2024-01-02T00:00:00.000Z"
          "2024-01-01T00:00:00.000Z" cexForm) true)
        (signatureFromUpload (some "admin") "id1" "2024-01-02T00:00:00.000Z"
          "2024-01-01T00:00:00.000Z" cexForm).user
        (signatureFromUpload (some "admin") "id1" "2024-01-02T00:00:00.000Z"
          "2024-01-01T00:00:00.000Z" cexForm)
    ∧ ∃ sn, (globalReload envLocalOk cexState false false).1.globalSignees = some sn
        ∧ SigIn sn.map cexY.user cexY :=
  ⟨local_signature_upload_visible.1 (some "admin") "id1" "2024-01-02T00:00:00.000Z"
      "2024-01-01T00:00:00.000Z" cexForm,
   local_signature_upload_visible.2.1 [] (some "admin") "id1" "2024-01-02T00:00:00.000Z"
      "2024-01-01T00:00:00.000Z" cexForm,
   local_signature_upload_visible.2.2 envLocalOk cexState false false cexY cexGist
      cexSignees [cexY] rfl rfl (by simp) rfl rfl⟩

/-! ## Alternate lookup indexing (claim C8; spec-modelled) -/

/-- The value a signature's parsed `custom_fields` map holds for field
`f`, if any. -/
def customField (sig : Signature) (f : String) : Option String :=
  ((sig.custom_fields.getD []).find? (fun kv => kv.1 = f)).map (fun kv => kv.2)

/-- Modelled from the spec: the alternate-lookup indexing step of the
snapshot builder — the `CLA_LOOKUP_FIELDS` feature documented in the
repository README ("the `/list/username` endpoint will also match users
based on the specified fields of `custom_fields` … should the same custom
field value map to several different user names, all corresponding
signatures will be considered as belonging to one user under that custom
field value"), whose implementing code is not present in
`src/server.mjs`.  With a list of custom-field names configured, every
signature of the built map is additionally indexed under the values
those fields take in its `custom_fields`, using the same
get-push-or-set grouping as the builder. -/
def addLookupIndex (fields : List String) (m : SigMap) : SigMap :=
  (m.flatMap (fun e => e.2)).foldl (fun acc sig =>
    fields.foldl (fun acc f =>
      match customField sig f with
      | some v => mapPush acc v sig
      | none => acc) acc) m

theorem sigIn_fieldsFold_mono {u : String} {x : Signature} (sig : Signature)
    (fields : List String) {acc : SigMap} (h : SigIn acc u x) :
    SigIn (fields.foldl (fun acc f =>
      match customField sig f with
      | some v => mapPush acc v sig
      | none => acc) acc) u x := by
  induction fields generalizing acc with
  | nil => exact h
  | cons f rest ih =>
    rw [List.foldl_cons]
    cases hc : customField sig f with
    | some v => exact ih (sigIn_mapPush_mono v sig h)
    | none => exact ih h

theorem sigIn_fieldsFold_self {f v : String} {sig : Signature}
    {fields : List String} {acc : SigMap} (hf : f ∈ fields)
    (hv : customField sig f = some v) :
    SigIn (fields.foldl (fun acc f =>
      match customField sig f with
      | some v => mapPush acc v sig
      | none => acc) acc) v sig := by
  induction fields generalizing acc with
  | nil => cases hf
  | cons f' rest ih =>
    rw [List.foldl_cons]
    rcases List.mem_cons.mp hf with rfl | hf
    · rw [hv]
      exact sigIn_fieldsFold_mono sig rest (sigIn_mapPush_self acc v sig)
    · exact ih hf

theorem sigIn_sigsFold_mono {u : String} {x : Signature} (fields : List String)
    (sigs : List Signature) {acc : SigMap} (h : SigIn acc u x) :
    SigIn (sigs.foldl (fun acc sig =>
      fields.foldl (fun acc f =>
        match customField sig f with
        | some v => mapPush acc v sig
        | none => acc) acc) acc) u x := by
  induction sigs generalizing acc with
  | nil => exact h
  | cons sg rest ih =>
    rw [List.foldl_cons]
    exact ih (sigIn_fieldsFold_mono sg fields h)

theorem sigIn_sigsFold_self {f v : String} {sig : Signature}
    {fields : List String} {sigs : List Signature} {acc : SigMap}
    (hsig : sig ∈ sigs) (hf : f ∈ fields) (hv : customField sig f = some v) :
    SigIn (sigs.foldl (fun acc sig =>
      fields.foldl (fun acc f =>
        match customField sig f with
        | some v => mapPush acc v sig
        | none => acc) acc) acc) v sig := by
  induction sigs generalizing acc with
  | nil => cases hsig
  | cons sg rest ih =>
    rw [List.foldl_cons]
    rcases List.mem_cons.mp hsig with rfl | hsig
    · exact sigIn_sigsFold_mono fields rest (sigIn_fieldsFold_self hf hv)
    · exact ih hsig

theorem mem_flatMap_of_sigIn {m : SigMap} {u : String} {x : Signature}
    (h : SigIn m u x) : x ∈ m.flatMap (fun e => e.2) := by
  obtain ⟨l, hl, hx⟩ := h
  unfold mapFind? at hl
  cases hf : m.find? (fun e => e.1 = u) with
  | none => rw [hf] at hl; cases hl
  | some e =>
    rw [hf] at hl
    have hev : e.2 = l := by simpa using hl
    exact List.mem_flatMap.mpr ⟨e, List.mem_of_find?_eq_some hf, hev ▸ hx⟩

/-- C8: with an alternate-lookup configuration active, the indexed
snapshot resolves a configured custom-field value to a single coalesced
signatory list containing every signature carrying that value — even
when those signatures belong to distinct subject identifiers. -/
theorem alternate_lookup_coalesces (fields : List String) (m : SigMap)
    (f v u₁ u₂ : String) (s₁ s₂ : Signature)
    (hf : f ∈ fields)
    (h₁ : SigIn m u₁ s₁) (h₂ : SigIn m u₂ s₂)
    (hv₁ : customField s₁ f = some v) (hv₂ : customField s₂ f = some v) :
    ∃ l, mapFind? (addLookupIndex fields m) v = some l ∧ s₁ ∈ l ∧ s₂ ∈ l := by
  have hm₁ : s₁ ∈ m.flatMap (fun e => e.2) := mem_flatMap_of_sigIn h₁
  have hm₂ : s₂ ∈ m.flatMap (fun e => e.2) := mem_flatMap_of_sigIn h₂
  obtain ⟨l₁, hl₁, hs₁⟩ : SigIn (addLookupIndex fields m) v s₁ :=
    sigIn_sigsFold_self hm₁ hf hv₁
  obtain ⟨l₂, hl₂, hs₂⟩ : SigIn (addLookupIndex fields m) v s₂ :=
    sigIn_sigsFold_self hm₂ hf hv₂
  obtain rfl : l₁ = l₂ := by rw [hl₁] at hl₂; exact Option.some_inj.mp hl₂
  exact ⟨l₁, hl₁, hs₁, hs₂⟩

/-- Alice's signature carrying `internalId=42`. -/
def cexA42 : Signature :=
  { sigId := "a42", user := "alice", created_at := "2024-01-01",
    updated_at := "2024-01-01", custom_fields := some [("internalId", "42")] }

/-- The alias account's signature carrying the same `internalId=42`. -/
def cexB42 : Signature :=
  { sigId := "b42", user := "a.k.a", created_at := "2024-02-01",
    updated_at := "2024-02-01", custom_fields := some [("internalId", "42")] }

/-- Witness for C8: `alice` and `a.k.a` both carry `internalId=42`; the
lookup under key `42` yields one coalesced list holding both. -/
theorem alternate_lookup_coalesces_witness :
    ∃ l, mapFind? (addLookupIndex ["internalId"]
        [("alice", [cexA42]), ("a.k.a", [cexB42])]) "42" = some l
      ∧ cexA42 ∈ l ∧ cexB42 ∈ l :=
  alternate_lookup_coalesces ["internalId"]
    [("alice", [cexA42]), ("a.k.a", [cexB42])] "internalId" "42" "alice" "a.k.a"
    cexA42 cexB42 (by simp)
    ⟨[cexA42], by decide, by simp⟩ ⟨[cexB42], by decide, by simp⟩
    (by decide) (by decide)

/-! ## The file-cache serializer: `writeCacheFile` / `readCacheFile`
(claim C5)

`writeCacheFile` stringifies with a replacer that tags `Map`s (adding a
`__map` own property holding `Array.from(map.entries())`) and `Date`s
(replacing them by `{ __date: date.toJSON() }`); `readCacheFile` parses
with a reviver that rebuilds `Map`s and `Date`s from those tags and
`Object.assign`s the parsed object's properties back onto them.  The
JSON text is modelled by the JSON value tree it denotes, so the
composition of the two file operations is the composition of the
replacer pass and the reviver pass below. -/

/-- A JS runtime value as the cache serializer sees it: JSON scalars,
arrays and plain objects, plus `Map`s (entry list and own enumerable
properties, e.g. the signee map's `timestamp`) and `Date`s (the ISO
string `toJSON` returns, plus own properties). -/
inductive JVal where
  | undef
  | null
  | bool (b : Bool)
  | num (n : Int)
  | str (s : String)
  | arr (elems : List JVal)
  | obj (props : List (String × JVal))
  | jsMap (entries : List (JVal × JVal)) (props : List (String × JVal))
  | date (iso : String) (props : List (String × JVal))

/-- JS truthiness of a value (`NaN` aside, which the tree has no
representation for). -/
def jsTruthy : JVal → Bool
  | JVal.undef => false
  | .null => false
  | .bool b => b
  | .num n => n ≠ 0
  | .str s => s ≠ ""
  | _ => true

/-- `JSON.stringify` renders `undefined` array elements as `null`. -/
def undefToNull (v : JVal) : JVal :=
  match v with
  | JVal.undef => .null
  | v => v

mutual
/-- The replacer+stringify pass of `writeCacheFile`: a `Map` becomes a
plain object of its own properties with the fresh `__map` property
(enumerating last, as just assigned by the replacer) holding its entry
array; a `Date` becomes `{ __date: date.toJSON() }`, its other own
properties dropped; an `undefined` property is omitted and an
`undefined` array element becomes `null`. -/
def writeCacheFile : JVal → JVal
  | JVal.undef => JVal.undef
  | .null => .null
  | .bool b => .bool b
  | .num n => .num n
  | .str s => .str s
  | .arr xs => .arr (writeElems xs)
  | .obj props => .obj (writeProps props)
  | .jsMap entries props =>
    .obj (writeProps props ++ [("__map", .arr (writeEntries entries))])
  | .date iso _ => .obj [("__date", .str iso)]

/-- Array elements under the replacer pass. -/
def writeElems : List JVal → List JVal
  | [] => []
  | x :: xs => undefToNull (writeCacheFile x) :: writeElems xs

/-- Object properties under the replacer pass (`undefined` values are
omitted by `JSON.stringify`). -/
def writeProps : List (String × JVal) → List (String × JVal)
  | [] => []
  | (k, v) :: rest =>
    match writeCacheFile v with
    | JVal.undef => writeProps rest
    | v' => (k, v') :: writeProps rest

/-- `Array.from(map.entries())` under the replacer pass: a list of
two-element arrays. -/
def writeEntries : List (JVal × JVal) → List JVal
  | [] => []
  | (k, v) :: rest =>
    .arr [undefToNull (writeCacheFile k), undefToNull (writeCacheFile v)]
      :: writeEntries rest
end

/-- `value[k]` on a parsed object. -/
def propLookup (props : List (String × JVal)) (k : String) : Option JVal :=
  (props.find? (fun kv => kv.1 = k)).map (fun kv => kv.2)

/-- One element of the iterable passed to `new Map`: `item[0]` and
`item[1]`; a non-object element makes the constructor throw. -/
def entryOfJs : JVal → Option (JVal × JVal)
  | .arr [] => some (JVal.undef, JVal.undef)
  | .arr [k] => some (k, JVal.undef)
  | .arr (k :: v :: _) => some (k, v)
  | .obj props =>
    some ((propLookup props "0").getD JVal.undef, (propLookup props "1").getD JVal.undef)
  | _ => none

/-- The iterable passed to `new Map(value.__map)`; a non-array makes the
constructor throw. -/
def entriesOfJs : JVal → Option (List (JVal × JVal))
  | .arr items => items.mapM entryOfJs
  | _ => none

/-- The `__date` arm of the reviver: `new Date(value.__date)` followed by
`Object.assign(date, value)`.  A non-string truthy `__date` (never
produced by the serializer) would invoke JS `Date` coercion, which is
not modelled. -/
def reviveDate (props : List (String × JVal)) : Option JVal :=
  match propLookup props "__date" with
  | some dv =>
    if jsTruthy dv then
      match dv with
      | .str iso => some (.date iso props)
      | _ => none
    else some (.obj props)
  | none => some (.obj props)

/-- The reviver function of `readCacheFile`, applied to a value whose
children have already been revived.  A falsy value makes the reviver
return `undefined` (there is no `return value` for that branch in the
source), deleting the property; a truthy `__map` rebuilds a `Map` and
`Object.assign`s all parsed properties (the `__map` marker included)
onto it; otherwise a truthy `__date` rebuilds a `Date`. -/
def revive (v : JVal) : Option JVal :=
  if jsTruthy v then
    match v with
    | .obj props =>
      match propLookup props "__map" with
      | some mv =>
        if jsTruthy mv then
          match entriesOfJs mv with
          | some es => some (.jsMap es props)
          | none => none
        else reviveDate props
      | none => reviveDate props
    | v => some v
  else some JVal.undef

/-- Reassignment of a revived property by `JSON.parse`'s internal walk:
a property whose revived value is `undefined` is deleted. -/
def consProp (k : String) (y : JVal) (ys : List (String × JVal)) :
    List (String × JVal) :=
  match y with
  | JVal.undef => ys
  | _ => (k, y) :: ys

mutual
/-- The parse+reviver pass of `readCacheFile` over the JSON tree read
back from disk (`JSON.parse` walks bottom-up; a property whose revived
value is `undefined` is deleted, an array element stays as a hole). -/
def readCacheFile : JVal → Option JVal
  | .arr xs => do revive (.arr (← readElems xs))
  | .obj props => do revive (.obj (← readProps props))
  | v => revive v

/-- Array elements under the reviver pass. -/
def readElems : List JVal → Option (List JVal)
  | [] => some []
  | x :: xs => do pure ((← readCacheFile x) :: (← readElems xs))

/-- Object properties under the reviver pass. -/
def readProps : List (String × JVal) → Option (List (String × JVal))
  | [] => some []
  | (k, v) :: rest => do
    let y ← readCacheFile v
    let ys ← readProps rest
    pure (consProp k y ys)
end

/-- No entry of the list has string key `s`. -/
def entryKeyFree (s : String) : List (JVal × JVal) → Bool
  | [] => true
  | (k, _) :: rest =>
    (match k with
     | .str t => t ≠ s
     | _ => true) && entryKeyFree s rest

mutual
/-- Values whose serialization round-trips cleanly: JSON-truthy leaves
(the reviver deletes falsy-valued properties), no `__map`/`__date`
marker keys, duplicate-free object keys (`JSON.parse` keeps only the
last duplicate), non-empty duplicate-free string map keys (`new Map`
collapses duplicates), and dates carrying no extra own properties (the
serializer drops them). -/
def Good : JVal → Bool
  | JVal.undef => false
  | .null => false
  | .bool b => b
  | .num n => n ≠ 0
  | .str s => s ≠ ""
  | .arr xs => GoodElems xs
  | .obj props => GoodProps props
  | .jsMap entries props => GoodEntries entries && GoodProps props
  | .date iso props => props.isEmpty && iso ≠ ""

def GoodElems : List JVal → Bool
  | [] => true
  | x :: xs => Good x && GoodElems xs

def GoodProps : List (String × JVal) → Bool
  | [] => true
  | (k, v) :: rest =>
    k ≠ "__map" && k ≠ "__date" && (rest.find? (fun kv => kv.1 = k)).isNone
      && Good v && GoodProps rest

def GoodEntries : List (JVal × JVal) → Bool
  | [] => true
  | (k, v) :: rest =>
    (match k with
     | .str s => s ≠ "" && entryKeyFree s rest
     | _ => false)
    && Good v && GoodEntries rest
end

mutual
/-- What the decoder hands back for a `Good` value: the value itself,
except that every revived `Map` additionally carries the decoder's
`__map` property (holding the revived entry arrays, appended after the
original properties) and every revived `Date` carries `__date` as its
sole own property. -/
def addMarks : JVal → JVal
  | JVal.undef => JVal.undef
  | .null => .null
  | .bool b => .bool b
  | .num n => .num n
  | .str s => .str s
  | .arr xs => .arr (addMarksElems xs)
  | .obj props => .obj (addMarksProps props)
  | .jsMap entries props =>
    .jsMap (addMarksEntries entries)
      (addMarksProps props ++ [("__map", .arr (addMarksEntryArrs entries))])
  | .date iso _ => .date iso [("__date", .str iso)]

def addMarksElems : List JVal → List JVal
  | [] => []
  | x :: xs => addMarks x :: addMarksElems xs

def addMarksProps : List (String × JVal) → List (String × JVal)
  | [] => []
  | (k, v) :: rest => (k, addMarks v) :: addMarksProps rest

def addMarksEntries : List (JVal × JVal) → List (JVal × JVal)
  | [] => []
  | (k, v) :: rest => (addMarks k, addMarks v) :: addMarksEntries rest

def addMarksEntryArrs : List (JVal × JVal) → List JVal
  | [] => []
  | (k, v) :: rest => .arr [addMarks k, addMarks v] :: addMarksEntryArrs rest
end

theorem writeCacheFile_ne_undef {v : JVal} (h : Good v = true) :
    writeCacheFile v ≠ JVal.undef := by
  cases v <;> simp_all [Good, writeCacheFile]

theorem addMarks_ne_undef {v : JVal} (h : Good v = true) :
    addMarks v ≠ JVal.undef := by
  cases v <;> simp_all [Good, addMarks]

theorem undefToNull_of_ne {v : JVal} (h : v ≠ JVal.undef) :
    undefToNull v = v := by
  cases v <;> simp_all [undefToNull]

theorem consProp_append (k : String) (y : JVal)
    (ys zs : List (String × JVal)) :
    consProp k y (ys ++ zs) = consProp k y ys ++ zs := by
  cases y <;> simp [consProp]

theorem readProps_append {l₁ l₂ r₁ r₂ : List (String × JVal)}
    (h₁ : readProps l₁ = some r₁) (h₂ : readProps l₂ = some r₂) :
    readProps (l₁ ++ l₂) = some (r₁ ++ r₂) := by
  induction l₁ generalizing r₁ with
  | nil =>
    simp only [readProps] at h₁
    obtain rfl : r₁ = [] := by simpa using h₁.symm
    simpa using h₂
  | cons kv rest ih =>
    obtain ⟨k, v⟩ := kv
    simp only [List.cons_append, readProps, bind, Option.bind, List.append_eq]
      at h₁ ⊢
    cases hv : readCacheFile v with
    | none => rw [hv] at h₁; exact Option.noConfusion h₁
    | some y =>
      rw [hv] at h₁
      cases hr : readProps rest with
      | none => rw [hr] at h₁; exact Option.noConfusion h₁
      | some ys =>
        rw [hr] at h₁
        rw [ih hr]
        have h₁' : consProp k y ys = r₁ := by simpa using h₁
        show some (consProp k y (ys ++ r₂)) = some (r₁ ++ r₂)
        rw [consProp_append, h₁']

theorem propLookup_addMarksProps_marker {props : List (String × JVal)}
    (h : GoodProps props = true) (k : String)
    (hk : k = "__map" ∨ k = "__date") :
    propLookup (addMarksProps props) k = none := by
  induction props with
  | nil => simp [addMarksProps, propLookup]
  | cons kv rest ih =>
    obtain ⟨k', v⟩ := kv
    simp only [GoodProps, Bool.and_eq_true, decide_eq_true_eq, ne_eq] at h
    obtain ⟨⟨⟨⟨hm, hd⟩, hfind⟩, hv⟩, hrest⟩ := h
    have hne : ¬ k' = k := by rcases hk with rfl | rfl <;> simp_all
    have hstep : propLookup (addMarksProps ((k', v) :: rest)) k
        = propLookup (addMarksProps rest) k := by
      simp only [addMarksProps, propLookup]
      rw [List.find?_cons_of_neg _ (by simp [hne])]
    rw [hstep]
    exact ih hrest
theorem consProp_of_ne_undef {y : JVal} (k : String)
    (ys : List (String × JVal)) (h : y ≠ JVal.undef) :
    consProp k y ys = (k, y) :: ys := by
  cases y <;> simp_all [consProp]

theorem propLookup_append_right {l₁ l₂ : List (String × JVal)} {k : String}
    (h : propLookup l₁ k = none) : propLookup (l₁ ++ l₂) k = propLookup l₂ k := by
  unfold propLookup at *
  cases hf : l₁.find? (fun kv => kv.1 = k) with
  | none => rw [List.find?_append, hf, Option.none_or]
  | some e => rw [hf] at h; cases h

mutual
/-- Round trip of one `Good` value through the serializer: the decoder
returns the original value with the decoder's marker properties added. -/
theorem read_write_val (v : JVal) (h : Good v = true) :
    readCacheFile (writeCacheFile v) = some (addMarks v) := by
  cases v with
  | undef => simp [Good] at h
  | null => simp [Good] at h
  | bool b =>
    cases b with
    | false => simp [Good] at h
    | true => simp [writeCacheFile, readCacheFile, revive, jsTruthy, addMarks]
  | num n =>
    have hn : ¬ n = 0 := by simpa [Good] using h
    simp [writeCacheFile, readCacheFile, revive, jsTruthy, addMarks, hn]
  | str s =>
    have hs : ¬ s = "" := by simpa [Good] using h
    simp [writeCacheFile, readCacheFile, revive, jsTruthy, addMarks, hs]
  | arr xs =>
    have hxs : GoodElems xs = true := by simpa [Good] using h
    simp only [writeCacheFile, readCacheFile, bind, Option.bind]
    rw [read_write_elems xs hxs]
    simp [revive, jsTruthy, addMarks]
  | obj props =>
    have hp : GoodProps props = true := by simpa [Good] using h
    simp only [writeCacheFile, readCacheFile, bind, Option.bind]
    rw [read_write_props props hp]
    simp [revive, jsTruthy, reviveDate, addMarks,
      propLookup_addMarksProps_marker hp "__map" (Or.inl rfl),
      propLookup_addMarksProps_marker hp "__date" (Or.inr rfl)]
  | jsMap entries props =>
    have hge : GoodEntries entries = true := by
      have := h; simp only [Good, Bool.and_eq_true] at this; exact this.1
    have hgp : GoodProps props = true := by
      have := h; simp only [Good, Bool.and_eq_true] at this; exact this.2
    simp only [writeCacheFile, readCacheFile, bind, Option.bind]
    have hmapprop : readProps [("__map", JVal.arr (writeEntries entries))]
        = some [("__map", JVal.arr (addMarksEntryArrs entries))] := by
      simp only [readProps, readCacheFile, bind, Option.bind]
      rw [(read_write_entries entries hge).1]
      simp [revive, jsTruthy, consProp]
    rw [readProps_append (read_write_props props hgp) hmapprop]
    have hlook : propLookup
        (addMarksProps props ++ [("__map", JVal.arr (addMarksEntryArrs entries))])
        "__map" = some (JVal.arr (addMarksEntryArrs entries)) := by
      rw [propLookup_append_right
        (propLookup_addMarksProps_marker hgp "__map" (Or.inl rfl))]
      simp [propLookup]
    simp only [revive, jsTruthy, hlook]
    rw [(read_write_entries entries hge).2]
    simp [addMarks]
  | date iso props =>
    have hpe : props = [] := by
      have := h; simp only [Good, Bool.and_eq_true] at this
      simpa using this.1
    have hiso : ¬ iso = "" := by
      have := h; simp only [Good, Bool.and_eq_true, decide_eq_true_eq] at this
      simpa using this.2
    subst hpe
    simp only [writeCacheFile, readCacheFile, bind, Option.bind]
    have hrp : readProps [("__date", JVal.str iso)]
        = some [("__date", JVal.str iso)] := by
      simp [readProps, readCacheFile, revive, jsTruthy, consProp, hiso]
    rw [hrp]
    simp [revive, jsTruthy, reviveDate, propLookup, hiso, addMarks]

/-- Round trip of `Good` array elements. -/
theorem read_write_elems (xs : List JVal) (h : GoodElems xs = true) :
    readElems (writeElems xs) = some (addMarksElems xs) := by
  cases xs with
  | nil => simp [writeElems, readElems, addMarksElems]
  | cons x rest =>
    have hx : Good x = true := by
      have := h; simp only [GoodElems, Bool.and_eq_true] at this; exact this.1
    have hrest : GoodElems rest = true := by
      have := h; simp only [GoodElems, Bool.and_eq_true] at this; exact this.2
    simp only [writeElems, readElems, bind, Option.bind]
    rw [undefToNull_of_ne (writeCacheFile_ne_undef hx), read_write_val x hx,
      read_write_elems rest hrest]
    simp [addMarksElems]

/-- Round trip of `Good` object properties. -/
theorem read_write_props (props : List (String × JVal))
    (h : GoodProps props = true) :
    readProps (writeProps props) = some (addMarksProps props) := by
  cases props with
  | nil => simp [writeProps, readProps, addMarksProps]
  | cons kv rest =>
    obtain ⟨k, v⟩ := kv
    have h' := h
    simp only [GoodProps, Bool.and_eq_true, decide_eq_true_eq, ne_eq] at h'
    obtain ⟨⟨⟨⟨hm, hd⟩, hfind⟩, hv⟩, hrest⟩ := h'
    have hw := writeCacheFile_ne_undef hv
    have hwp : writeProps ((k, v) :: rest)
        = (k, writeCacheFile v) :: writeProps rest := by
      simp only [writeProps]
    rw [hwp]
    simp only [readProps, bind, Option.bind]
    rw [read_write_val v hv, read_write_props rest hrest]
    show some (consProp k (addMarks v) (addMarksProps rest))
      = some (addMarksProps ((k, v) :: rest))
    rw [consProp_of_ne_undef k _ (addMarks_ne_undef hv)]
    simp [addMarksProps]

/-- Round trip of `Good` map entries: the serialized entry arrays revive
to the marked entry arrays, and `new Map` extracts the marked entries
from them. -/
theorem read_write_entries (es : List (JVal × JVal)) (h : GoodEntries es = true) :
    readElems (writeEntries es) = some (addMarksEntryArrs es)
    ∧ entriesOfJs (JVal.arr (addMarksEntryArrs es))
        = some (addMarksEntries es) := by
  cases es with
  | nil =>
    constructor
    · simp [writeEntries, readElems, addMarksEntryArrs]
    · simp [addMarksEntryArrs, entriesOfJs, addMarksEntries, List.mapM,
        List.mapM.loop]
  | cons kv rest =>
    obtain ⟨k, v⟩ := kv
    have h' := h
    simp only [GoodEntries, Bool.and_eq_true] at h'
    obtain ⟨⟨hk, hv⟩, hrest⟩ := h'
    have hkG : Good k = true := by
      cases k <;> simp_all [Good]
    constructor
    · have hkw : readCacheFile (writeCacheFile k) = some (addMarks k) :=
        read_write_val k hkG
      have hvw : readCacheFile (writeCacheFile v) = some (addMarks v) :=
        read_write_val v hv
      simp only [writeEntries, readElems, readCacheFile, bind, Option.bind]
      rw [undefToNull_of_ne (writeCacheFile_ne_undef hkG),
        undefToNull_of_ne (writeCacheFile_ne_undef hv)]
      rw [hkw, hvw, (read_write_entries rest hrest).1]
      simp [revive, jsTruthy, addMarksEntryArrs]
    · have hrec := (read_write_entries rest hrest).2
      simp only [addMarksEntryArrs]
      have hcons : entriesOfJs (JVal.arr (JVal.arr [addMarks k, addMarks v]
            :: addMarksEntryArrs rest))
          = (entriesOfJs (JVal.arr (addMarksEntryArrs rest))).map
              (fun es => (addMarks k, addMarks v) :: es) := by
        simp only [entriesOfJs, List.mapM_cons, entryOfJs]
        cases hms : (addMarksEntryArrs rest).mapM entryOfJs with
        | none => simp [hms]
        | some es => simp [hms]
      rw [hcons, hrec]
      simp [addMarksEntries]
end

/-- C5 — the claim as stated fails on the code (see the counterexample
below); this is the amended version.  For every structure whose stored
values are JSON-truthy and marker-free (`Good`), writing with the
file-cache serializer and reading back yields the original structure
except that the decoder leaves its marker properties behind: every
revived `Map` carries a `__map` own property and every revived `Date`
carries a `__date` own property (`Object.assign` copies them from the
parsed object). -/
theorem cache_roundtrip_adds_markers (v : JVal) (h : Good v = true) :
    readCacheFile (writeCacheFile v) = some (addMarks v) :=
  read_write_val v h

/-- A concrete signee-map-shaped value: one signatory entry plus the
`timestamp` own property of the map. -/
def cexMapVal : JVal :=
  JVal.jsMap
    [(JVal.str "alice",
      JVal.arr [JVal.obj [("user", JVal.str "alice"),
                          ("created_at", JVal.str "2024-01-01")]])]
    [("timestamp", JVal.date "2024-01-02T03:04:05.000Z" [])]

/-- What the decoder actually returns for `cexMapVal`: the `timestamp`
date gained a `__date` property and the map gained the `__map` marker. -/
def cexMapValMarked : JVal :=
  JVal.jsMap
    [(JVal.str "alice",
      JVal.arr [JVal.obj [("user", JVal.str "alice"),
                          ("created_at", JVal.str "2024-01-01")]])]
    [("timestamp", JVal.date "2024-01-02T03:04:05.000Z"
        [("__date", JVal.str "2024-01-02T03:04:05.000Z")]),
     ("__map", JVal.arr [JVal.arr [JVal.str "alice",
        JVal.arr [JVal.obj [("user", JVal.str "alice"),
                            ("created_at", JVal.str "2024-01-01")]]]])]

/-- C5 counterexample: the round trip of this concrete signatory map
(with its `timestamp` property and a nested signature object) does not
reproduce a structure equal to the original — the decoder's `__map` and
`__date` marker properties remain on the result. -/
theorem cache_roundtrip_cex :
    readCacheFile (writeCacheFile cexMapVal) = some cexMapValMarked
    ∧ readCacheFile (writeCacheFile cexMapVal) ≠ some cexMapVal := by
  have heval : readCacheFile (writeCacheFile cexMapVal) = some cexMapValMarked := by
    simp [cexMapVal, cexMapValMarked, writeCacheFile, writeProps, writeEntries,
      writeElems, readCacheFile, readProps, readElems, revive, reviveDate,
      jsTruthy, propLookup, entriesOfJs, entryOfJs, consProp, undefToNull,
      bind, Option.bind, List.mapM, List.mapM.loop]
  refine ⟨heval, ?_⟩
  rw [heval]
  intro hc
  have hv : cexMapValMarked = cexMapVal := Option.some_inj.mp hc
  simp [cexMapVal, cexMapValMarked] at hv

/-- Witness for the amended C5 theorem at a concrete `Good` value. -/
theorem cache_roundtrip_adds_markers_witness :
    readCacheFile (writeCacheFile cexMapVal) = some (addMarks cexMapVal) :=
  cache_roundtrip_adds_markers cexMapVal (by
    simp [cexMapVal, Good, GoodEntries, GoodProps, GoodElems, entryKeyFree])

end ClaDwight
